import Mathlib

/-!
# windows_svc.go: the Windows service wrapper

A shallow embedding of `WinService.Execute`, `WinService.Install` and
`WinService.Uninstall` from `windows_svc.go`.

* The control loop `Execute` runs over the finite list of requests that the
  channel `r` delivers, in arrival order.  A receive from `r` once the list is
  exhausted blocks for ever, so the embedding then reports no return value.
  Sends on `changes` are assumed to be received by the dispatcher.
* `cmd.Start` and `cmd.Stop` belong to a package outside this file; the only
  thing the control loop can observe about them is whether control comes back,
  so they are parameters of kind `Hook`.
* The service control manager reached through `mgr` is a list of registered
  entries; every call can additionally fail with an error supplied by the
  environment record of the call.
-/

/-! ## Constants of `golang.org/x/sys/windows/svc` and `svc/mgr` -/

namespace svc

/-- Service state `svc.Stopped` (SERVICE_STOPPED). -/
abbrev Stopped : Nat := 1
/-- Service state `svc.StartPending` (SERVICE_START_PENDING). -/
abbrev StartPending : Nat := 2
/-- Service state `svc.StopPending` (SERVICE_STOP_PENDING). -/
abbrev StopPending : Nat := 3
/-- Service state `svc.Running` (SERVICE_RUNNING). -/
abbrev Running : Nat := 4
/-- Service state `svc.ContinuePending`. -/
abbrev ContinuePending : Nat := 5
/-- Service state `svc.PausePending`. -/
abbrev PausePending : Nat := 6
/-- Service state `svc.Paused`. -/
abbrev Paused : Nat := 7

/-- Control command `svc.Stop` (SERVICE_CONTROL_STOP). -/
abbrev Stop : Nat := 1
/-- Control command `svc.Pause`. -/
abbrev Pause : Nat := 2
/-- Control command `svc.Continue`. -/
abbrev Continue : Nat := 3
/-- Control command `svc.Interrogate` (SERVICE_CONTROL_INTERROGATE). -/
abbrev Interrogate : Nat := 4
/-- Control command `svc.Shutdown` (SERVICE_CONTROL_SHUTDOWN). -/
abbrev Shutdown : Nat := 5

/-- Accept flag `svc.AcceptStop` (SERVICE_ACCEPT_STOP). -/
abbrev AcceptStop : Nat := 1
/-- Accept flag `svc.AcceptPauseAndContinue`. -/
abbrev AcceptPauseAndContinue : Nat := 2
/-- Accept flag `svc.AcceptShutdown` (SERVICE_ACCEPT_SHUTDOWN). -/
abbrev AcceptShutdown : Nat := 4
/-- Accept flag `svc.AcceptParamChange`. -/
abbrev AcceptParamChange : Nat := 8
/-- Accept flag `svc.AcceptNetBindChange`. -/
abbrev AcceptNetBindChange : Nat := 16
/-- Accept flag `svc.AcceptHardwareProfileChange`. -/
abbrev AcceptHardwareProfileChange : Nat := 32
/-- Accept flag `svc.AcceptPowerEvent`. -/
abbrev AcceptPowerEvent : Nat := 64
/-- Accept flag `svc.AcceptSessionChange`. -/
abbrev AcceptSessionChange : Nat := 128
/-- Accept flag `svc.AcceptPreShutdown`. -/
abbrev AcceptPreShutdown : Nat := 256

/-- Every `Accepted` flag the package defines.  There is none for
`Interrogate`. -/
def acceptFlags : List Nat :=
  [AcceptStop, AcceptPauseAndContinue, AcceptShutdown, AcceptParamChange,
   AcceptNetBindChange, AcceptHardwareProfileChange, AcceptPowerEvent,
   AcceptSessionChange, AcceptPreShutdown]

/-- The flags of `acceptFlags` that are set in the bitset `a`. -/
def flagsIn (a : Nat) : List Nat :=
  acceptFlags.filter (fun f => a &&& f != 0)

/-- The struct `svc.Status`; every field is an unsigned machine integer. -/
structure Status where
  State : Nat := 0
  Accepts : Nat := 0
  CheckPoint : Nat := 0
  WaitHint : Nat := 0
  ProcessID : Nat := 0
  Win32ExitCode : Nat := 0
  ServiceSpecificExitCode : Nat := 0
deriving DecidableEq, Repr

/-- The struct `svc.ChangeRequest`. -/
structure ChangeRequest where
  Cmd : Nat := 0
  EventType : Nat := 0
  EventData : Nat := 0
  CurrentStatus : Status := {}
  Context : Nat := 0
deriving DecidableEq, Repr

end svc

namespace mgr

/-- Start type `mgr.StartManual` (SERVICE_DEMAND_START). -/
abbrev StartManual : Nat := 3
/-- Start type `mgr.StartAutomatic` (SERVICE_AUTO_START). -/
abbrev StartAutomatic : Nat := 2

end mgr

/-! ## The descriptor and the hooks -/

/-- The struct `WinService`. -/
structure WinService where
  ServiceName : String
  ServiceDisplayName : String
  ServiceDescription : String
  AutoStart : Bool
  ForceReinstallOnDuplicate : Bool
deriving DecidableEq, Repr

/-- What a call of a function of the hosted application does to its caller:
control comes back, or it never does. -/
inductive Hook where
  | returns
  | blocks
deriving DecidableEq, Repr

/-- The package `cmd` of the hosted application: `cmd.Start` and `cmd.Stop`. -/
structure App where
  Start : Hook
  Stop : Hook
deriving DecidableEq, Repr

/-- The method `StartApp`: it calls `cmd.Start()`. -/
def WinService.StartApp (app : App) : Hook := app.Start

/-- The method `StopApp`: it calls `cmd.Stop()`. -/
def WinService.StopApp (app : App) : Hook := app.Stop

/-! ## The control loop -/

/-- What one activation of `Execute` does, as seen from outside. -/
inductive Event where
  /-- A send `changes <- s`. -/
  | send (s : svc.Status)
  /-- The statement `go w.StartApp()`. -/
  | goStartApp
  /-- The call `w.StopApp()`. -/
  | callStopApp
deriving DecidableEq, Repr

/-- The observable run of `Execute`: the events in order, the requests left
unreceived on `r`, and the returned pair, absent when the function never
returns. -/
structure Run where
  trace : List Event
  rest : List svc.ChangeRequest
  ret : Option (Bool × Nat)
deriving DecidableEq, Repr

/-- Put an event in front of a run. -/
def Run.after (e : Event) (k : Run) : Run := { k with trace := e :: k.trace }

/-- A `go f()` statement: the new goroutine is started and the caller goes on
at once, whatever `f` does. -/
def goStmt (_f : Hook) (e : Event) (k : Run) : Run := k.after e

/-- A plain call `f()`: the caller goes on with `k` when `f` returns, and is
stuck at the call, with `rs` still unreceived, when it does not. -/
def callStmt (f : Hook) (e : Event) (rs : List svc.ChangeRequest) (k : Run) : Run :=
  match f with
  | .returns => k.after e
  | .blocks => { trace := [e], rest := rs, ret := none }

/-- The constant `cmdAccepted` of `Execute`. -/
def cmdAccepted : Nat := svc.AcceptStop ||| svc.AcceptShutdown

/-- The labelled `for`/`select` loop of `Execute` over the requests `r` still
has to deliver. -/
def WinService.Execute.loop (app : App) : List svc.ChangeRequest → Run
  | [] => { trace := [], rest := [], ret := none }
  | c :: rs =>
    if c.Cmd = svc.Interrogate then
      (WinService.Execute.loop app rs).after (.send c.CurrentStatus)
    else if c.Cmd = svc.Stop ∨ c.Cmd = svc.Shutdown then
      Run.after (.send { State := svc.StopPending })
        (callStmt (WinService.StopApp app) .callStopApp rs
          { trace := [.send { State := svc.Stopped }], rest := rs, ret := some (false, 0) })
    else
      WinService.Execute.loop app rs

/-- The method `Execute`. -/
def WinService.Execute (_w : WinService) (app : App) (_args : List String)
    (r : List svc.ChangeRequest) : Run :=
  Run.after (.send { State := svc.StartPending })
    (goStmt (WinService.StartApp app) .goStartApp
      (Run.after (.send { State := svc.Running, Accepts := cmdAccepted })
        (WinService.Execute.loop app r)))

/-- The statuses sent on `changes`, in order. -/
def published : List Event → List svc.Status
  | [] => []
  | .send s :: t => s :: published t
  | _ :: t => published t

/-- The states of the statuses sent on `changes`, in order. -/
def publishedStates (t : List Event) : List Nat := (published t).map (·.State)

/-- An `Interrogate` request that carries the status `cur`. -/
def interrogate (cur : svc.Status) : svc.ChangeRequest :=
  { Cmd := svc.Interrogate, CurrentStatus := cur }

/-- The order of the life cycle: `StartPending`, `Running`, `StopPending`,
`Stopped`. -/
def lifecycle : List Nat :=
  [svc.StartPending, svc.Running, svc.StopPending, svc.Stopped]

/-- A sequence of states only moves forward in the life cycle: every state
is one of the four, and no state stands earlier in the order than one
published before it. -/
def forwardOnly (l : List Nat) : Prop :=
  (∀ s ∈ l, s ∈ lifecycle) ∧
  l.Pairwise (fun a b => lifecycle.indexOf a ≤ lifecycle.indexOf b)

instance (l : List Nat) : Decidable (forwardOnly l) := by
  unfold forwardOnly; infer_instance

/-- A request that ends the loop: `Stop` or `Shutdown`. -/
def terminates (c : svc.ChangeRequest) : Prop :=
  c.Cmd = svc.Stop ∨ c.Cmd = svc.Shutdown

instance (c : svc.ChangeRequest) : Decidable (terminates c) := by
  unfold terminates; infer_instance

/-- Replace the command `a` of a request by `b`, leaving every other field and
every other request as it is. -/
def replaceCmd (a b : Nat) (c : svc.ChangeRequest) : svc.ChangeRequest :=
  if c.Cmd = a then { c with Cmd := b } else c

/-- The events of the `Interrogate` requests of `l`: each one sends back the
status the request carries. -/
def echoes (l : List svc.ChangeRequest) : List Event :=
  (l.filter (fun c => c.Cmd = svc.Interrogate)).map (fun c => Event.send c.CurrentStatus)

/-- The `case svc.Stop, svc.Shutdown` branch of the loop, with `rs` still
unreceived. -/
def stopBranch (app : App) (rs : List svc.ChangeRequest) : Run :=
  Run.after (.send { State := svc.StopPending })
    (callStmt (WinService.StopApp app) .callStopApp rs
      { trace := [.send { State := svc.Stopped }], rest := rs, ret := some (false, 0) })

/-! ## The service control manager -/

/-- A Go `error` value: an error number of the operating system, or a
message built by `fmt.Errorf`. -/
inductive Err where
  | errno (code : Nat)
  | errorf (msg : String)
deriving DecidableEq, Repr

/-- The error number ERROR_SERVICE_DOES_NOT_EXIST. -/
abbrev ERROR_SERVICE_DOES_NOT_EXIST : Nat := 1060
/-- The error number ERROR_SERVICE_EXISTS. -/
abbrev ERROR_SERVICE_EXISTS : Nat := 1073

/-- One registration held by the service control manager. -/
structure Entry where
  name : String
  exePath : String
  displayName : String
  description : String
  startType : Nat
  state : Nat
deriving DecidableEq, Repr

/-- A call made to the service control manager or to the clock. -/
inductive Op where
  | connect
  | disconnect
  | listServices
  | openService (name : String)
  | query (name : String)
  | control (name : String) (cmd : Nat)
  | delete (name : String)
  | createService (name exePath displayName description : String) (startType : Nat)
  | close (name : String)
  | sleep (seconds : Nat)
deriving DecidableEq, Repr

/-- The registrations of the service control manager and the calls made so
far, oldest first. -/
structure World where
  registry : List Entry
  log : List Op
deriving DecidableEq, Repr

/-- Note a call in the log. -/
def World.record (σ : World) (op : Op) : World := { σ with log := σ.log ++ [op] }

/-- The calls that mutate a registration: a control, a delete, a create. -/
def Op.mutates : Op → Bool
  | .control _ _ => true
  | .delete _ => true
  | .createService _ _ _ _ _ => true
  | _ => false

/-- The calls made between the world `σ` and the later world `τ`. -/
def issued (σ τ : World) : List Op := τ.log.drop σ.log.length

/-- The entries of a registry under the name `n`. -/
def entriesOf (n : String) (reg : List Entry) : List Entry :=
  reg.filter (fun e => e.name = n)

/-- The entries of a registry under every name but `n`. -/
def others (n : String) (reg : List Entry) : List Entry :=
  reg.filter (fun e => e.name ≠ n)

/-- Give the entries named `n` the state `st`: what the service itself does to
its registration while it runs or stops. -/
def setState (n : String) (st : Nat) (reg : List Entry) : List Entry :=
  reg.map (fun e => if e.name = n then { e with state := st } else e)

namespace mgr

/-- Modelled from the spec: `m.ListServices()` of the package `mgr`, the
enumeration of the registered names in order. -/
def ListServices (fault : Option Err) (reg : List Entry) : Except Err (List String) :=
  match fault with
  | some e => .error e
  | none => .ok (reg.map (·.name))

/-- Modelled from the spec: `m.OpenService(name)` of the package `mgr`; it
fails with the not-found error, ERROR_SERVICE_DOES_NOT_EXIST, when no entry
has the name. -/
def OpenService (fault : Option Err) (reg : List Entry) (name : String) : Except Err Entry :=
  match reg.find? (fun e => e.name = name) with
  | none => .error (.errno ERROR_SERVICE_DOES_NOT_EXIST)
  | some e =>
    match fault with
    | some err => .error err
    | none => .ok e

/-- Modelled from the spec: `s.Query()` of the package `mgr`, the state the
service control manager reports for the opened entry. -/
def Query (fault : Option Err) (s : Entry) : Except Err svc.Status :=
  match fault with
  | some e => .error e
  | none => .ok { State := s.state }

/-- Modelled from the spec: `s.Control(c)` of the package `mgr`; on success
the service has taken the state `next`. -/
def Control (fault : Option Err) (next : Nat) (reg : List Entry) (s : Entry) :
    Except Err (List Entry) :=
  match fault with
  | some e => .error e
  | none => .ok (setState s.name next reg)

/-- Modelled from the spec: `s.Delete()` of the package `mgr`; on success the
registration is removed. -/
def Delete (fault : Option Err) (reg : List Entry) (s : Entry) : Except Err (List Entry) :=
  match fault with
  | some e => .error e
  | none => .ok (others s.name reg)

/-- Modelled from the spec: `m.CreateService(name, exePath, cfg)` of the
package `mgr`; it fails with the already-exists error, ERROR_SERVICE_EXISTS,
when the name is registered, and otherwise registers a stopped service. -/
def CreateService (fault : Option Err) (reg : List Entry)
    (name exePath displayName description : String) (startType : Nat) :
    Except Err (List Entry) :=
  if reg.any (fun e => e.name = name) then .error (.errno ERROR_SERVICE_EXISTS)
  else
    match fault with
    | some e => .error e
    | none =>
      .ok (reg ++ [{ name := name, exePath := exePath, displayName := displayName,
                     description := description, startType := startType,
                     state := svc.Stopped }])

end mgr

/-- What the environment decides during one call of `Uninstall`: the failure
of each call to the service control manager, if any, and the state the service
takes when it accepts `Stop`. -/
structure UninstallEnv where
  connect : Option Err := none
  openService : Option Err := none
  query : Option Err := none
  control : Option Err := none
  stopState : Nat := svc.StopPending
  delete : Option Err := none
deriving DecidableEq, Repr

/-- What the environment decides during one call of `Install`: the results of
`os.Executable` and `filepath.Abs`, the failure of each call to the service
control manager, if any, and the environment of the nested `Uninstall`. -/
structure InstallEnv where
  executable : Except Err String
  abs : String → Except Err String
  connect : Option Err := none
  listServices : Option Err := none
  uninstall : UninstallEnv := {}
  createService : Option Err := none

/-- The method `Uninstall`.  The deferred `tools.Close(s)` and
`m.Disconnect()` run on every exit after they were registered. -/
def WinService.Uninstall (w : WinService) (env : UninstallEnv) (σ : World) :
    Option Err × World :=
  let σ := σ.record .connect
  match env.connect with
  | some err => (some err, σ)
  | none =>
    let σ := σ.record (.openService w.ServiceName)
    match mgr.OpenService env.openService σ.registry w.ServiceName with
    | .error err => (some err, σ.record .disconnect)
    | .ok s =>
      let σ := σ.record (.query s.name)
      match mgr.Query env.query s with
      | .error err => (some err, (σ.record (.close s.name)).record .disconnect)
      | .ok status =>
        let stopped : Option Err × World :=
          if status.State = svc.Running then
            let σ := σ.record (.control s.name svc.Stop)
            match mgr.Control env.control env.stopState σ.registry s with
            | .error err => (some err, σ)
            | .ok reg => (none, { σ with registry := reg }.record (.sleep 1))
          else (none, σ)
        match stopped with
        | (some err, σ) => (some err, (σ.record (.close s.name)).record .disconnect)
        | (none, σ) =>
          let σ := σ.record (.delete s.name)
          match mgr.Delete env.delete σ.registry s with
          | .error err => (some err, (σ.record (.close s.name)).record .disconnect)
          | .ok reg =>
            (none, ({ σ with registry := reg }.record (.close s.name)).record .disconnect)

/-- The `for _, service := range services` loop of `Install`. -/
def WinService.Install.scan (w : WinService) (env : InstallEnv) :
    List String → World → Option Err × World
  | [], σ => (none, σ)
  | service :: rest, σ =>
    if service = w.ServiceName then
      if w.ForceReinstallOnDuplicate then
        match w.Uninstall env.uninstall σ with
        | (some err, σ) => (some err, σ)
        | (none, σ) => (none, σ.record (.sleep 3))
      else
        (some (.errorf ("service " ++ service ++ " is already installed")), σ)
    else WinService.Install.scan w env rest σ

/-- The method `Install`. -/
def WinService.Install (w : WinService) (env : InstallEnv) (σ : World) :
    Option Err × World :=
  match env.executable with
  | .error err => (some err, σ)
  | .ok exe =>
    match env.abs exe with
    | .error err => (some err, σ)
    | .ok exePath =>
      let σ := σ.record .connect
      match env.connect with
      | some err => (some err, σ)
      | none =>
        let σ := σ.record .listServices
        match mgr.ListServices env.listServices σ.registry with
        | .error err => (some err, σ.record .disconnect)
        | .ok services =>
          match WinService.Install.scan w env services σ with
          | (some err, σ) => (some err, σ.record .disconnect)
          | (none, σ) =>
            let startType := if w.AutoStart then mgr.StartAutomatic else mgr.StartManual
            let σ := σ.record (.createService w.ServiceName exePath w.ServiceDisplayName
              w.ServiceDescription startType)
            match mgr.CreateService env.createService σ.registry w.ServiceName exePath
                w.ServiceDisplayName w.ServiceDescription startType with
            | .error err => (some err, σ.record .disconnect)
            | .ok reg =>
              (none, ({ σ with registry := reg }.record (.close w.ServiceName)).record
                .disconnect)

/-- The executable path `Install` registers: `filepath.Abs` of
`os.Executable`. -/
def resolvedPath (env : InstallEnv) : Except Err String :=
  match env.executable with
  | .error err => .error err
  | .ok exe => env.abs exe

/-- The entry `Install` creates for the descriptor `w` at the path `p`. -/
def WinService.entry (w : WinService) (p : String) : Entry :=
  { name := w.ServiceName, exePath := p, displayName := w.ServiceDisplayName,
    description := w.ServiceDescription,
    startType := if w.AutoStart then mgr.StartAutomatic else mgr.StartManual,
    state := svc.Stopped }

/-! ## Sample inputs -/

/-- The descriptor of `main`, with plain names. -/
def sampleService : WinService :=
  { ServiceName := "AATestGoServer", ServiceDisplayName := "AATestGoServer service",
    ServiceDescription := "AATestGoServer description", AutoStart := true,
    ForceReinstallOnDuplicate := true }

/-- A registration of the sample service at an old path, running. -/
def sampleEntry : Entry :=
  { name := "AATestGoServer", exePath := "C:/old/svc.exe", displayName := "old",
    description := "old", startType := mgr.StartManual, state := svc.Running }

/-- A registration under another name. -/
def otherEntry : Entry :=
  { name := "Spooler", exePath := "C:/Windows/spoolsv.exe", displayName := "Print Spooler",
    description := "", startType := mgr.StartAutomatic, state := svc.Running }

/-- An environment in which the executable resolves and nothing fails. -/
def sampleEnv : InstallEnv :=
  { executable := .ok "svc.exe", abs := fun p => .ok ("C:/new/" ++ p) }

/-! ## Lemmas on the control loop -/

theorem published_append (a b : List Event) :
    published (a ++ b) = published a ++ published b := by
  induction a with
  | nil => rfl
  | cons e t ih => cases e <;> simp [published, ih]

theorem interrogate_not_terminates {c : svc.ChangeRequest} (h : c.Cmd = svc.Interrogate) :
    ¬ terminates c := by
  simp [terminates, h]

/-- Without a `Stop` or `Shutdown` the loop echoes and then waits for ever. -/
theorem loop_waits (app : App) (rs : List svc.ChangeRequest)
    (h : ∀ x ∈ rs, ¬ terminates x) :
    WinService.Execute.loop app rs = { trace := echoes rs, rest := [], ret := none } := by
  induction rs with
  | nil => rfl
  | cons c rs ih =>
    have hc : ¬ terminates c := h c (List.mem_cons_self _ _)
    have ih := ih (fun x hx => h x (List.mem_cons_of_mem _ hx))
    unfold terminates at hc
    by_cases hi : c.Cmd = svc.Interrogate
    · simp [WinService.Execute.loop, hi, ih, echoes, Run.after]
    · simp [WinService.Execute.loop, hi, hc, ih, echoes]

/-- Up to the first `Stop` or `Shutdown` the loop echoes, then it takes the
stop branch and leaves the rest unreceived. -/
theorem loop_stops (app : App) (pre : List svc.ChangeRequest) (c : svc.ChangeRequest)
    (rest : List svc.ChangeRequest) (h : ∀ x ∈ pre, ¬ terminates x) (hc : terminates c) :
    WinService.Execute.loop app (pre ++ c :: rest) =
      { stopBranch app rest with trace := echoes pre ++ (stopBranch app rest).trace } := by
  induction pre with
  | nil =>
    have hi : ¬ c.Cmd = svc.Interrogate := fun hi => interrogate_not_terminates hi hc
    unfold terminates at hc
    simp [WinService.Execute.loop, hi, hc, echoes, stopBranch]
  | cons d pre ih =>
    have hd : ¬ terminates d := h d (List.mem_cons_self _ _)
    have ih := ih (fun x hx => h x (List.mem_cons_of_mem _ hx))
    unfold terminates at hd
    by_cases hi : d.Cmd = svc.Interrogate
    · simp [WinService.Execute.loop, hi, ih, echoes, Run.after]
    · simp [WinService.Execute.loop, hi, hd, ih, echoes]

/-- Every request list either has no `Stop` or `Shutdown`, or splits at its
first one. -/
theorem split_at_first (rs : List svc.ChangeRequest) :
    (∀ x ∈ rs, ¬ terminates x) ∨
    ∃ pre c rest, rs = pre ++ c :: rest ∧ terminates c ∧ ∀ x ∈ pre, ¬ terminates x := by
  induction rs with
  | nil => left; simp
  | cons d rs ih =>
    by_cases hd : terminates d
    · right; exact ⟨[], d, rs, rfl, hd, by simp⟩
    · rcases ih with h | ⟨pre, c, rest, rfl, hc, hpre⟩
      · left
        intro x hx
        rcases List.mem_cons.mp hx with rfl | hx
        · exact hd
        · exact h x hx
      · right
        refine ⟨d :: pre, c, rest, rfl, hc, ?_⟩
        intro x hx
        rcases List.mem_cons.mp hx with rfl | hx
        · exact hd
        · exact hpre x hx

/-- The loop never starts the start hook. -/
theorem loop_no_go (app : App) (rs : List svc.ChangeRequest) :
    Event.goStartApp ∉ (WinService.Execute.loop app rs).trace := by
  induction rs with
  | nil => simp [WinService.Execute.loop]
  | cons c rs ih =>
    by_cases hi : c.Cmd = svc.Interrogate
    · simp [WinService.Execute.loop, hi, Run.after, ih]
    · by_cases ht : c.Cmd = svc.Stop ∨ c.Cmd = svc.Shutdown
      · cases hs : WinService.StopApp app <;>
          simp [WinService.Execute.loop, hi, ht, Run.after, callStmt, hs]
      · simp [WinService.Execute.loop, hi, ht, ih]

/-- The loop does not depend on the start hook. -/
theorem loop_start_irrelevant (start start2 stop : Hook) (rs : List svc.ChangeRequest) :
    WinService.Execute.loop ⟨start, stop⟩ rs = WinService.Execute.loop ⟨start2, stop⟩ rs := by
  induction rs with
  | nil => rfl
  | cons c rs ih => simp [WinService.Execute.loop, ih, WinService.StopApp]

theorem replaceCmd_status (a b : Nat) (c : svc.ChangeRequest) :
    (replaceCmd a b c).CurrentStatus = c.CurrentStatus := by
  unfold replaceCmd; split <;> rfl

theorem replaceCmd_interrogate {a b : Nat}
    (ha : a = svc.Stop ∨ a = svc.Shutdown) (hb : b = svc.Stop ∨ b = svc.Shutdown)
    (c : svc.ChangeRequest) :
    (replaceCmd a b c).Cmd = svc.Interrogate ↔ c.Cmd = svc.Interrogate := by
  unfold replaceCmd
  rcases ha with rfl | rfl <;> rcases hb with rfl | rfl <;> split <;> simp_all

theorem replaceCmd_terminates {a b : Nat}
    (ha : a = svc.Stop ∨ a = svc.Shutdown) (hb : b = svc.Stop ∨ b = svc.Shutdown)
    (c : svc.ChangeRequest) :
    ((replaceCmd a b c).Cmd = svc.Stop ∨ (replaceCmd a b c).Cmd = svc.Shutdown) ↔
      (c.Cmd = svc.Stop ∨ c.Cmd = svc.Shutdown) := by
  unfold replaceCmd
  rcases ha with rfl | rfl <;> rcases hb with rfl | rfl <;> split <;> simp_all

/-- Exchanging the two terminating commands does not change what the loop
does. -/
theorem loop_replaceCmd (app : App) (a b : Nat)
    (ha : a = svc.Stop ∨ a = svc.Shutdown) (hb : b = svc.Stop ∨ b = svc.Shutdown)
    (rs : List svc.ChangeRequest) :
    WinService.Execute.loop app (rs.map (replaceCmd a b)) =
      { WinService.Execute.loop app rs with
        rest := (WinService.Execute.loop app rs).rest.map (replaceCmd a b) } := by
  induction rs with
  | nil => rfl
  | cons c rs ih =>
    simp only [List.map_cons, WinService.Execute.loop, replaceCmd_status,
      replaceCmd_interrogate ha hb, replaceCmd_terminates ha hb]
    by_cases hi : c.Cmd = svc.Interrogate
    · simp [hi, ih, Run.after]
    · by_cases ht : c.Cmd = svc.Stop ∨ c.Cmd = svc.Shutdown
      · cases hs : WinService.StopApp app <;> simp [hi, ht, Run.after, callStmt, hs]
      · simp [hi, ht, ih]

/-- The loop returns exactly when a `Stop` or `Shutdown` arrives and the stop
hook comes back, and then it returns `(false, 0)`. -/
theorem loop_ret (app : App) (rs : List svc.ChangeRequest) :
    (WinService.Execute.loop app rs).ret =
      if (∃ c ∈ rs, terminates c) ∧ WinService.StopApp app = .returns
      then some (false, 0) else none := by
  rcases split_at_first rs with h | ⟨pre, c, rest, rfl, hc, hpre⟩
  · rw [loop_waits app rs h]
    have : ¬ ∃ c ∈ rs, terminates c := fun ⟨c, hc, ht⟩ => h c hc ht
    rw [if_neg (fun hh => this hh.1)]
  · rw [loop_stops app pre c rest hpre hc]
    have hex : ∃ x ∈ pre ++ c :: rest, terminates x := ⟨c, by simp, hc⟩
    cases hs : WinService.StopApp app
    · rw [if_pos ⟨hex, rfl⟩]
      simp [stopBranch, callStmt, Run.after, hs]
    · rw [if_neg (fun hh => by cases hh.2)]
      simp [stopBranch, callStmt, Run.after, hs]

/-! ## Theorems on the control loop -/

/-- C1: fed n Interrogate requests that carry the current (Running) status and
then one Stop, with a stop hook that returns, Execute sends StartPending,
Running, the n carried statuses, StopPending and Stopped in this order, the
states being StartPending, Running, n times Running, StopPending, Stopped; the
stop hook is called exactly once, between the StopPending and the Stopped
send, and Execute returns (false, 0). -/
theorem C1_interrogates_then_stop (w : WinService) (app : App) (args : List String)
    (n : Nat) (reqs : List svc.ChangeRequest) (c : svc.ChangeRequest)
    (hn : reqs.length = n)
    (hreqs : ∀ x ∈ reqs, x.Cmd = svc.Interrogate ∧ x.CurrentStatus.State = svc.Running)
    (hc : c.Cmd = svc.Stop)
    (hstop : WinService.StopApp app = Hook.returns) :
    (WinService.Execute w app args (reqs ++ [c])).trace =
        [Event.send { State := svc.StartPending }, Event.goStartApp,
         Event.send { State := svc.Running, Accepts := cmdAccepted }]
        ++ reqs.map (fun x => Event.send x.CurrentStatus)
        ++ [Event.send { State := svc.StopPending }, Event.callStopApp,
            Event.send { State := svc.Stopped }] ∧
    publishedStates (WinService.Execute w app args (reqs ++ [c])).trace =
        [svc.StartPending, svc.Running] ++ List.replicate n svc.Running
        ++ [svc.StopPending, svc.Stopped] ∧
    (WinService.Execute w app args (reqs ++ [c])).trace.count Event.callStopApp = 1 ∧
    (WinService.Execute w app args (reqs ++ [c])).ret = some (false, 0) := by
  have hpre : ∀ x ∈ reqs, ¬ terminates x :=
    fun x hx => interrogate_not_terminates (hreqs x hx).1
  have hecho : echoes reqs = reqs.map (fun x => Event.send x.CurrentStatus) := by
    unfold echoes
    rw [List.filter_eq_self.mpr (fun x hx => by simp [(hreqs x hx).1])]
  have hpub : ∀ l : List svc.ChangeRequest,
      (∀ x ∈ l, x.Cmd = svc.Interrogate ∧ x.CurrentStatus.State = svc.Running) →
      (published (l.map (fun x => Event.send x.CurrentStatus))).map (·.State) =
        List.replicate l.length svc.Running := by
    intro l
    induction l with
    | nil => intro _; rfl
    | cons d l ih =>
      intro h
      have hd := (h d (List.mem_cons_self _ _)).2
      have ih := ih (fun x hx => h x (List.mem_cons_of_mem _ hx))
      simp only [List.map_cons, published, List.length_cons, List.replicate_succ, hd, ih]
  have hcount : ∀ l : List svc.ChangeRequest,
      (l.map (fun x => Event.send x.CurrentStatus)).count Event.callStopApp = 0 := by
    intro l
    induction l with
    | nil => rfl
    | cons d l ih => simp [List.count_cons, ih]
  have hrun : WinService.Execute.loop app (reqs ++ [c]) =
      { trace := reqs.map (fun x => Event.send x.CurrentStatus) ++
          [Event.send { State := svc.StopPending }, Event.callStopApp,
           Event.send { State := svc.Stopped }],
        rest := [], ret := some (false, 0) } := by
    rw [loop_stops app reqs c [] hpre (Or.inl hc), hecho]
    simp [stopBranch, callStmt, hstop, Run.after]
  subst hn
  refine ⟨?_, ?_, ?_, ?_⟩
  · simp [WinService.Execute, goStmt, Run.after, hrun]
  · simp only [WinService.Execute, goStmt, Run.after, hrun, publishedStates, published,
      published_append, List.map_cons, List.map_append, hpub reqs hreqs]
    simp
  · simp [WinService.Execute, goStmt, Run.after, hrun, List.count_cons, hcount]
  · simp [WinService.Execute, goStmt, Run.after, hrun]

/-- C1 witness: the requests [Interrogate, Interrogate, Stop] give the states
[StartPending, Running, Running, Running, StopPending, Stopped]. -/
theorem C1_interrogates_then_stop_witness :
    (WinService.StopApp ⟨Hook.blocks, Hook.returns⟩ = Hook.returns) ∧
    publishedStates (WinService.Execute sampleService ⟨Hook.blocks, Hook.returns⟩ []
      [interrogate { State := svc.Running, Accepts := cmdAccepted },
       interrogate { State := svc.Running, Accepts := cmdAccepted },
       { Cmd := svc.Stop }]).trace =
      [svc.StartPending, svc.Running, svc.Running, svc.Running, svc.StopPending,
       svc.Stopped] :=
  ⟨rfl, (C1_interrogates_then_stop sampleService ⟨Hook.blocks, Hook.returns⟩ [] 2
    [interrogate { State := svc.Running, Accepts := cmdAccepted },
     interrogate { State := svc.Running, Accepts := cmdAccepted }]
    { Cmd := svc.Stop } rfl (by decide) rfl rfl).2.1⟩

/-- C2: for every request sequence, replacing each Stop by Shutdown, or each
Shutdown by Stop, leaves the run of Execute unchanged: the same events (status
sends and hook invocations) in the same positions and the same return value,
which is (false, 0) exactly when a Stop or Shutdown arrives and the stop hook
returns; the requests left unreceived are the same ones, replaced alike. -/
theorem C2_stop_shutdown_interchangeable (w : WinService) (app : App) (args : List String)
    (rs : List svc.ChangeRequest) :
    (WinService.Execute w app args (rs.map (replaceCmd svc.Stop svc.Shutdown))).trace =
        (WinService.Execute w app args rs).trace ∧
    (WinService.Execute w app args (rs.map (replaceCmd svc.Stop svc.Shutdown))).ret =
        (WinService.Execute w app args rs).ret ∧
    (WinService.Execute w app args (rs.map (replaceCmd svc.Stop svc.Shutdown))).rest =
        (WinService.Execute w app args rs).rest.map (replaceCmd svc.Stop svc.Shutdown) ∧
    (WinService.Execute w app args (rs.map (replaceCmd svc.Shutdown svc.Stop))).trace =
        (WinService.Execute w app args rs).trace ∧
    (WinService.Execute w app args (rs.map (replaceCmd svc.Shutdown svc.Stop))).ret =
        (WinService.Execute w app args rs).ret ∧
    (WinService.Execute w app args (rs.map (replaceCmd svc.Shutdown svc.Stop))).rest =
        (WinService.Execute w app args rs).rest.map (replaceCmd svc.Shutdown svc.Stop) ∧
    (WinService.Execute w app args rs).ret =
        (if (∃ c ∈ rs, terminates c) ∧ WinService.StopApp app = Hook.returns
         then some (false, 0) else none) := by
  have h1 := loop_replaceCmd app svc.Stop svc.Shutdown (Or.inl rfl) (Or.inr rfl) rs
  have h2 := loop_replaceCmd app svc.Shutdown svc.Stop (Or.inr rfl) (Or.inl rfl) rs
  have h3 := loop_ret app rs
  simp only [WinService.Execute, goStmt, Run.after, h1, h2]
  exact ⟨trivial, trivial, trivial, trivial, trivial, trivial, h3⟩

/-- C8: for every request sequence and every behaviour of the hooks, Execute
starts the start hook exactly once, with a go statement, after the send of
StartPending and before the send of Running, and the whole run (the statuses
sent included) is the same whether the start hook returns or never does. -/
theorem C8_start_hook_detached (w : WinService) (app : App) (args : List String)
    (rs : List svc.ChangeRequest) :
    (∃ t, (WinService.Execute w app args rs).trace =
        Event.send { State := svc.StartPending } :: Event.goStartApp ::
        Event.send { State := svc.Running, Accepts := cmdAccepted } :: t ∧
        Event.goStartApp ∉ t) ∧
    (WinService.Execute w app args rs).trace.count Event.goStartApp = 1 ∧
    WinService.Execute w { app with Start := Hook.returns } args rs =
      WinService.Execute w { app with Start := Hook.blocks } args rs ∧
    published (WinService.Execute w { app with Start := Hook.returns } args rs).trace =
      published (WinService.Execute w { app with Start := Hook.blocks } args rs).trace := by
  have hno := loop_no_go app rs
  have hirr := loop_start_irrelevant Hook.returns Hook.blocks app.Stop rs
  refine ⟨⟨(WinService.Execute.loop app rs).trace, ?_, hno⟩, ?_, ?_, ?_⟩
  · simp [WinService.Execute, goStmt, Run.after]
  · simp [WinService.Execute, goStmt, Run.after, List.count_cons,
      List.count_eq_zero_of_not_mem hno]
  · simp only [WinService.Execute, goStmt, hirr]
  · simp only [WinService.Execute, goStmt, hirr]

/-- C9 counterexample: the Running status Execute sends after starting the
start hook carries the bitset AcceptStop | AcceptShutdown, in which exactly two
flags are set; whatever bit a third flag for Interrogate would be, apart from
those two, the bitset does not contain it. -/
theorem C9_counterexample :
    (published (WinService.Execute sampleService ⟨Hook.returns, Hook.returns⟩ [] []).trace).map
        (fun s => (s.State, svc.flagsIn s.Accepts)) =
      [(svc.StartPending, []), (svc.Running, [svc.AcceptStop, svc.AcceptShutdown])] ∧
    ¬ ∃ f : Nat, f ≠ 0 ∧ f &&& (svc.AcceptStop ||| svc.AcceptShutdown) = 0 ∧
      (published (WinService.Execute sampleService ⟨Hook.returns, Hook.returns⟩ [] []).trace).map
        (fun s => s.Accepts) = [0, svc.AcceptStop ||| svc.AcceptShutdown ||| f] := by
  refine ⟨by decide, ?_⟩
  rintro ⟨f, hf, hdisj, heq⟩
  have h5 : svc.AcceptStop ||| svc.AcceptShutdown ||| f = svc.AcceptStop ||| svc.AcceptShutdown := by
    have : [0, cmdAccepted] = [0, svc.AcceptStop ||| svc.AcceptShutdown ||| f] := heq
    simp [cmdAccepted] at this
    exact this.symm
  apply hf
  apply Nat.eq_of_testBit_eq
  intro i
  have h1 := congrArg (fun x => x.testBit i) h5
  have h2 := congrArg (fun x => x.testBit i) hdisj
  simp only [Nat.testBit_or, Nat.testBit_and, Nat.zero_testBit] at h1 h2
  rw [Nat.zero_testBit]
  cases hb : f.testBit i
  · rfl
  · rw [hb] at h1 h2
    cases hs : ((svc.AcceptStop).testBit i || (svc.AcceptShutdown).testBit i) <;>
      rw [hs] at h1 h2 <;> simp at h1 h2

/-- C9 (amended): the Running status Execute sends right after starting the
start hook is the third event of every run and carries the bitset
AcceptStop | AcceptShutdown: of the accept flags of the svc package exactly
those for Stop and Shutdown. -/
theorem C9_running_accepts_stop_shutdown (w : WinService) (app : App) (args : List String)
    (rs : List svc.ChangeRequest) :
    (∃ t, (WinService.Execute w app args rs).trace =
        Event.send { State := svc.StartPending } :: Event.goStartApp ::
        Event.send { State := svc.Running,
                     Accepts := svc.AcceptStop ||| svc.AcceptShutdown } :: t) ∧
    svc.flagsIn (svc.AcceptStop ||| svc.AcceptShutdown) =
      [svc.AcceptStop, svc.AcceptShutdown] := by
  refine ⟨⟨(WinService.Execute.loop app rs).trace, ?_⟩, by decide⟩
  simp [WinService.Execute, goStmt, Run.after, cmdAccepted]

/-- The three shapes a run of Execute can have: waiting for ever, stuck in the
stop hook, or returned after Stopped. -/
theorem Execute_shape (w : WinService) (app : App) (args : List String)
    (rs : List svc.ChangeRequest) :
    ((∀ x ∈ rs, ¬ terminates x) ∧
      WinService.Execute w app args rs =
        { trace := Event.send { State := svc.StartPending } :: Event.goStartApp ::
            Event.send { State := svc.Running, Accepts := cmdAccepted } :: echoes rs,
          rest := [], ret := none }) ∨
    (∃ pre c rest, rs = pre ++ c :: rest ∧ terminates c ∧ (∀ x ∈ pre, ¬ terminates x) ∧
      WinService.StopApp app = Hook.blocks ∧
      WinService.Execute w app args rs =
        { trace := (Event.send { State := svc.StartPending } :: Event.goStartApp ::
            Event.send { State := svc.Running, Accepts := cmdAccepted } :: echoes pre) ++
            [Event.send { State := svc.StopPending }, Event.callStopApp],
          rest := rest, ret := none }) ∨
    (∃ pre c rest, rs = pre ++ c :: rest ∧ terminates c ∧ (∀ x ∈ pre, ¬ terminates x) ∧
      WinService.StopApp app = Hook.returns ∧
      WinService.Execute w app args rs =
        { trace := ((Event.send { State := svc.StartPending } :: Event.goStartApp ::
            Event.send { State := svc.Running, Accepts := cmdAccepted } :: echoes pre) ++
            [Event.send { State := svc.StopPending }, Event.callStopApp]) ++
            [Event.send { State := svc.Stopped }],
          rest := rest, ret := some (false, 0) }) := by
  rcases split_at_first rs with h | ⟨pre, c, rest, rfl, hc, hpre⟩
  · left
    exact ⟨h, by simp [WinService.Execute, goStmt, Run.after, loop_waits app rs h]⟩
  · right
    cases hs : WinService.StopApp app
    · right
      refine ⟨pre, c, rest, rfl, hc, hpre, rfl, ?_⟩
      simp [WinService.Execute, goStmt, Run.after, loop_stops app pre c rest hpre hc,
        stopBranch, callStmt, hs]
    · left
      refine ⟨pre, c, rest, rfl, hc, hpre, rfl, ?_⟩
      simp [WinService.Execute, goStmt, Run.after, loop_stops app pre c rest hpre hc,
        stopBranch, callStmt, hs]

theorem mem_publishedStates (x : Nat) (l : List Event) :
    x ∈ publishedStates l ↔ ∃ s, Event.send s ∈ l ∧ s.State = x := by
  induction l with
  | nil => simp [publishedStates, published]
  | cons e t ih =>
    unfold publishedStates at ih ⊢
    cases e with
    | send s0 =>
      simp only [published, List.map_cons, List.mem_cons, ih, Event.send.injEq]
      constructor
      · rintro (h | ⟨s, hs, hx⟩)
        · exact ⟨s0, Or.inl rfl, h.symm⟩
        · exact ⟨s, Or.inr hs, hx⟩
      · rintro ⟨s, (h | hs), hx⟩
        · left; rw [← hx, h]
        · exact Or.inr ⟨s, hs, hx⟩
    | goStartApp => simp [published, ih]
    | callStopApp => simp [published, ih]

theorem publishedStates_append (a b : List Event) :
    publishedStates (a ++ b) = publishedStates a ++ publishedStates b := by
  simp [publishedStates, published_append]

/-- When every Interrogate carries a Running status, every echo is Running. -/
theorem echoes_running (l : List svc.ChangeRequest)
    (h : ∀ c ∈ l, c.Cmd = svc.Interrogate → c.CurrentStatus.State = svc.Running) :
    ∀ s ∈ publishedStates (echoes l), s = svc.Running := by
  intro s hs
  rw [mem_publishedStates] at hs
  obtain ⟨st, hst, rfl⟩ := hs
  unfold echoes at hst
  rw [List.mem_map] at hst
  obtain ⟨c, hc, hcs⟩ := hst
  rw [List.mem_filter] at hc
  injection hcs with hcs
  rw [← hcs]
  exact h c hc.1 (by simpa using hc.2)

/-- A start, then Running states, then a piece of the stopping tail: such a
sequence of states only moves forward. -/
theorem forwardOnly_shape (A tail : List Nat) (hA : ∀ s ∈ A, s = svc.Running)
    (ht : tail = [] ∨ tail = [svc.StopPending] ∨ tail = [svc.StopPending, svc.Stopped]) :
    forwardOnly (svc.StartPending :: svc.Running :: (A ++ tail)) := by
  have hAr : A = List.replicate A.length svc.Running := List.eq_replicate_iff.mpr ⟨rfl, hA⟩
  have htm : ∀ s ∈ tail, s = svc.StopPending ∨ s = svc.Stopped := by
    rcases ht with rfl | rfl | rfl <;> simp
  have htp : tail.Pairwise (fun a b => lifecycle.indexOf a ≤ lifecycle.indexOf b) := by
    rcases ht with rfl | rfl | rfl <;> decide
  constructor
  · intro s hs
    simp only [List.mem_cons, List.mem_append] at hs
    rcases hs with rfl | rfl | hs | hs
    · decide
    · decide
    · rw [hA s hs]; decide
    · rcases htm s hs with rfl | rfl <;> decide
  · have hall : ∀ s ∈ A ++ tail, lifecycle.indexOf svc.Running ≤ lifecycle.indexOf s := by
      intro s hs
      rcases List.mem_append.mp hs with hs | hs
      · rw [hA s hs]
      · rcases htm s hs with rfl | rfl <;> decide
    refine List.Pairwise.cons ?_ (List.Pairwise.cons hall ?_)
    · intro s hs
      rcases List.mem_cons.mp hs with rfl | hs
      · decide
      · exact le_trans (by decide) (hall s hs)
    · rw [List.pairwise_append]
      refine ⟨?_, htp, ?_⟩
      · rw [hAr]
        exact List.pairwise_replicate.mpr (Or.inr (le_refl _))
      · intro a ha b hb
        rw [hA a ha]
        exact hall b (List.mem_append_right _ hb)

/-- C10 counterexample: an Interrogate request that carries a StartPending
status makes Execute publish StartPending after Running, and one that carries
a Stopped status makes it publish Stopped and then go on to receive the next
request and publish StopPending: the published states do not only move
forward. -/
theorem C10_counterexample :
    publishedStates (WinService.Execute sampleService ⟨Hook.returns, Hook.returns⟩ []
        [interrogate { State := svc.StartPending }, { Cmd := svc.Stop }]).trace =
      [svc.StartPending, svc.Running, svc.StartPending, svc.StopPending, svc.Stopped] ∧
    ¬ forwardOnly (publishedStates (WinService.Execute sampleService
        ⟨Hook.returns, Hook.returns⟩ []
        [interrogate { State := svc.StartPending }, { Cmd := svc.Stop }]).trace) ∧
    publishedStates (WinService.Execute sampleService ⟨Hook.returns, Hook.returns⟩ []
        [interrogate { State := svc.Stopped }, { Cmd := svc.Stop }]).trace =
      [svc.StartPending, svc.Running, svc.Stopped, svc.StopPending, svc.Stopped] ∧
    ¬ forwardOnly (publishedStates (WinService.Execute sampleService
        ⟨Hook.returns, Hook.returns⟩ []
        [interrogate { State := svc.Stopped }, { Cmd := svc.Stop }]).trace) := by
  decide

/-- C10 (amended): for every request sequence in which each Interrogate
request carries a status whose state is Running, the states Execute publishes
only move forward in the order StartPending, Running, StopPending, Stopped;
Stopped is published at most as the last event of the run; once it is
published Execute has returned (false, 0) and every request behind the first
Stop or Shutdown is left unreceived; and Execute returns only (false, 0), and
only with Stopped as its last event. -/
theorem C10_forward_only (w : WinService) (app : App) (args : List String)
    (rs : List svc.ChangeRequest)
    (h : ∀ c ∈ rs, c.Cmd = svc.Interrogate → c.CurrentStatus.State = svc.Running) :
    forwardOnly (publishedStates (WinService.Execute w app args rs).trace) ∧
    svc.Stopped ∉ publishedStates (WinService.Execute w app args rs).trace.dropLast ∧
    (svc.Stopped ∈ publishedStates (WinService.Execute w app args rs).trace →
      (WinService.Execute w app args rs).ret = some (false, 0) ∧
      ∃ pre c, rs = pre ++ c :: (WinService.Execute w app args rs).rest ∧ terminates c ∧
        ∀ x ∈ pre, ¬ terminates x) ∧
    (∀ v, (WinService.Execute w app args rs).ret = some v →
      v = (false, 0) ∧
      (WinService.Execute w app args rs).trace.getLast? =
        some (Event.send { State := svc.Stopped })) := by
  have hstates : ∀ pre : List svc.ChangeRequest, (∀ c ∈ pre, c ∈ rs) →
      ∀ s ∈ publishedStates (echoes pre), s = svc.Running :=
    fun pre hsub => echoes_running pre (fun c hc => h c (hsub c hc))
  have hhead : ∀ pre : List svc.ChangeRequest,
      publishedStates (Event.send { State := svc.StartPending } :: Event.goStartApp ::
        Event.send { State := svc.Running, Accepts := cmdAccepted } :: echoes pre) =
      svc.StartPending :: svc.Running :: publishedStates (echoes pre) := by
    intro pre; simp [publishedStates, published]
  have hne : svc.Stopped ≠ svc.Running := by decide
  rcases Execute_shape w app args rs with ⟨_, hrun⟩ | ⟨pre, c, rest, hrs, hc, hpre, _, hrun⟩ |
      ⟨pre, c, rest, hrs, hc, hpre, _, hrun⟩
  · have hR := hstates rs (fun c hc => hc)
    have hnot : svc.Stopped ∉ publishedStates (WinService.Execute w app args rs).trace := by
      rw [hrun, hhead]
      intro hm
      rcases List.mem_cons.mp hm with h1 | hm
      · exact absurd h1 (by decide)
      · rcases List.mem_cons.mp hm with h1 | hm
        · exact absurd h1 (by decide)
        · exact hne (hR _ hm)
    refine ⟨?_, ?_, ?_, ?_⟩
    · rw [hrun, hhead]
      simpa using forwardOnly_shape _ [] hR (Or.inl rfl)
    · intro hm
      rw [mem_publishedStates] at hm
      obtain ⟨s, hs, hst⟩ := hm
      exact hnot ((mem_publishedStates _ _).mpr ⟨s, List.mem_of_mem_dropLast hs, hst⟩)
    · intro hm; exact absurd hm hnot
    · intro v hv; rw [hrun] at hv; cases hv
  · have hR := hstates pre (fun x hx => by rw [hrs]; exact List.mem_append_left _ hx)
    have hnot : svc.Stopped ∉ publishedStates (WinService.Execute w app args rs).trace := by
      rw [hrun]
      simp only [publishedStates_append, hhead]
      intro hm
      rcases List.mem_append.mp hm with hm | hm
      · rcases List.mem_cons.mp hm with h1 | hm
        · exact absurd h1 (by decide)
        · rcases List.mem_cons.mp hm with h1 | hm
          · exact absurd h1 (by decide)
          · exact hne (hR _ hm)
      · exact absurd hm (by decide)
    refine ⟨?_, ?_, ?_, ?_⟩
    · rw [hrun]
      simp only [publishedStates_append, hhead]
      exact forwardOnly_shape _ [svc.StopPending] hR (Or.inr (Or.inl rfl))
    · intro hm
      rw [mem_publishedStates] at hm
      obtain ⟨s, hs, hst⟩ := hm
      exact hnot ((mem_publishedStates _ _).mpr ⟨s, List.mem_of_mem_dropLast hs, hst⟩)
    · intro hm; exact absurd hm hnot
    · intro v hv; rw [hrun] at hv; cases hv
  · have hR := hstates pre (fun x hx => by rw [hrs]; exact List.mem_append_left _ hx)
    refine ⟨?_, ?_, ?_, ?_⟩
    · rw [hrun]
      simp only [publishedStates_append, hhead]
      have := forwardOnly_shape _ [svc.StopPending, svc.Stopped] hR (Or.inr (Or.inr rfl))
      simpa [publishedStates, published] using this
    · rw [hrun]
      simp only [List.dropLast_concat, publishedStates_append, hhead]
      intro hm
      rcases List.mem_append.mp hm with hm | hm
      · rcases List.mem_cons.mp hm with h1 | hm
        · exact absurd h1 (by decide)
        · rcases List.mem_cons.mp hm with h1 | hm
          · exact absurd h1 (by decide)
          · exact hne (hR _ hm)
      · exact absurd hm (by decide)
    · intro _
      rw [hrun]
      exact ⟨rfl, pre, c, hrs, hc, hpre⟩
    · intro v hv
      rw [hrun] at hv ⊢
      simp only [Option.some.injEq] at hv
      exact ⟨hv.symm, List.getLast?_concat _⟩

/-- C10 witness: two Interrogate requests that carry the Running status, a
Pause that the loop ignores, a Shutdown, and a Stop that stays unreceived. -/
theorem C10_forward_only_witness :
    (∀ c ∈ [interrogate { State := svc.Running, Accepts := cmdAccepted },
            { Cmd := svc.Pause }, interrogate { State := svc.Running },
            { Cmd := svc.Shutdown }, ({ Cmd := svc.Stop } : svc.ChangeRequest)],
      c.Cmd = svc.Interrogate → c.CurrentStatus.State = svc.Running) ∧
    forwardOnly (publishedStates (WinService.Execute sampleService
      ⟨Hook.returns, Hook.returns⟩ []
      [interrogate { State := svc.Running, Accepts := cmdAccepted },
       { Cmd := svc.Pause }, interrogate { State := svc.Running },
       { Cmd := svc.Shutdown }, { Cmd := svc.Stop }]).trace) ∧
    (WinService.Execute sampleService ⟨Hook.returns, Hook.returns⟩ []
      [interrogate { State := svc.Running, Accepts := cmdAccepted },
       { Cmd := svc.Pause }, interrogate { State := svc.Running },
       { Cmd := svc.Shutdown }, { Cmd := svc.Stop }]).ret = some (false, 0) ∧
    (WinService.Execute sampleService ⟨Hook.returns, Hook.returns⟩ []
      [interrogate { State := svc.Running, Accepts := cmdAccepted },
       { Cmd := svc.Pause }, interrogate { State := svc.Running },
       { Cmd := svc.Shutdown }, { Cmd := svc.Stop }]).trace.getLast? =
      some (Event.send { State := svc.Stopped }) :=
  ⟨by decide,
   (C10_forward_only sampleService ⟨Hook.returns, Hook.returns⟩ []
      [interrogate { State := svc.Running, Accepts := cmdAccepted },
       { Cmd := svc.Pause }, interrogate { State := svc.Running },
       { Cmd := svc.Shutdown }, { Cmd := svc.Stop }] (by decide)).1,
   ((C10_forward_only sampleService ⟨Hook.returns, Hook.returns⟩ []
      [interrogate { State := svc.Running, Accepts := cmdAccepted },
       { Cmd := svc.Pause }, interrogate { State := svc.Running },
       { Cmd := svc.Shutdown }, { Cmd := svc.Stop }] (by decide)).2.2.1 (by decide)).1,
   ((C10_forward_only sampleService ⟨Hook.returns, Hook.returns⟩ []
      [interrogate { State := svc.Running, Accepts := cmdAccepted },
       { Cmd := svc.Pause }, interrogate { State := svc.Running },
       { Cmd := svc.Shutdown }, { Cmd := svc.Stop }] (by decide)).2.2.2 (false, 0)
      (by decide)).2⟩

/-! ## Lemmas on the service control manager -/

@[simp] theorem World.record_registry (σ : World) (op : Op) :
    (σ.record op).registry = σ.registry := rfl

@[simp] theorem World.record_log (σ : World) (op : Op) :
    (σ.record op).log = σ.log ++ [op] := rfl

theorem others_setState (n : String) (st : Nat) (reg : List Entry) :
    others n (setState n st reg) = others n reg := by
  induction reg with
  | nil => rfl
  | cons e t ih =>
    simp only [others, setState] at ih ⊢
    by_cases he : e.name = n
    · simp only [List.map_cons, he, if_true, List.filter_cons]
      simpa using ih
    · simp only [List.map_cons, he, if_false, List.filter_cons]
      simpa [he] using ih

theorem others_others (n : String) (reg : List Entry) :
    others n (others n reg) = others n reg := by
  simp [others, List.filter_filter]

theorem not_mem_others (n : String) (reg : List Entry) :
    ∀ e ∈ others n reg, e.name ≠ n := by
  intro e he
  simpa [others] using (List.mem_filter.mp he).2

theorem entriesOf_others (n : String) (reg : List Entry) :
    entriesOf n (others n reg) = [] := by
  simp [entriesOf, others, List.filter_filter]

theorem others_of_absent (n : String) (reg : List Entry) (h : ∀ e ∈ reg, e.name ≠ n) :
    others n reg = reg := by
  unfold others
  exact List.filter_eq_self.mpr (fun e he => by simpa using h e he)

theorem OpenService_name {fault : Option Err} {reg : List Entry} {n : String} {s : Entry}
    (h : mgr.OpenService fault reg n = .ok s) : s.name = n := by
  unfold mgr.OpenService at h
  cases hf : reg.find? (fun e => e.name = n) with
  | none => simp [hf] at h
  | some e =>
    have hn : e.name = n := by simpa using List.find?_some hf
    cases fault with
    | some err => simp [hf] at h
    | none =>
      simp only [hf, Except.ok.injEq] at h
      rw [← h]; exact hn

/-- A successful Uninstall leaves the registry without the entries of the
name, and the others as they were. -/
theorem Uninstall_ok (w : WinService) (env : UninstallEnv) (σ : World)
    (h : (w.Uninstall env σ).1 = none) :
    (w.Uninstall env σ).2.registry = others w.ServiceName σ.registry := by
  unfold WinService.Uninstall at h ⊢
  cases hconn : env.connect with
  | some err => simp [hconn] at h
  | none =>
    simp only [hconn] at h ⊢
    cases hopen : mgr.OpenService env.openService σ.registry w.ServiceName with
    | error err => simp [hopen] at h
    | ok s =>
      have hname := OpenService_name hopen
      simp only [World.record_registry, hopen] at h ⊢
      cases hq : mgr.Query env.query s with
      | error err => simp [hq] at h
      | ok status =>
        simp only [hq] at h ⊢
        by_cases hrun : status.State = svc.Running
        · simp only [hrun, if_true] at h ⊢
          cases hctl : env.control with
          | some err => simp [mgr.Control, hctl] at h
          | none =>
            simp only [mgr.Control, hctl] at h ⊢
            cases hdel : env.delete with
            | some err => simp [mgr.Delete, hdel] at h
            | none =>
              simp [mgr.Delete, hdel, hname, others_setState]
        · simp only [hrun, if_false] at h ⊢
          cases hdel : env.delete with
          | some err => simp [mgr.Delete, hdel] at h
          | none => simp [mgr.Delete, hdel, hname]

theorem OpenService_absent (fault : Option Err) (reg : List Entry) (n : String)
    (h : ∀ e ∈ reg, e.name ≠ n) :
    mgr.OpenService fault reg n = .error (.errno ERROR_SERVICE_DOES_NOT_EXIST) := by
  have hfind : reg.find? (fun e => e.name = n) = none :=
    List.find?_eq_none.mpr (fun e he => by simpa using h e he)
  simp [mgr.OpenService, hfind]

theorem OpenService_present (reg : List Entry) (n : String) (s : Entry)
    (h : reg.find? (fun e => e.name = n) = some s) :
    mgr.OpenService none reg n = .ok s := by
  simp [mgr.OpenService, h]

theorem any_name_false (reg : List Entry) (n : String) (h : ∀ e ∈ reg, e.name ≠ n) :
    reg.any (fun e => e.name = n) = false := by
  rw [List.any_eq_false]
  intro e he
  simpa using h e he

theorem scan_absent (w : WinService) (env : InstallEnv) (l : List String) (σ : World)
    (h : w.ServiceName ∉ l) : WinService.Install.scan w env l σ = (none, σ) := by
  induction l with
  | nil => rfl
  | cons a l ih =>
    have ha : ¬ a = w.ServiceName := fun e => h (by simp [e])
    have hl : w.ServiceName ∉ l := fun e => h (List.mem_cons_of_mem _ e)
    simp [WinService.Install.scan, ha, ih hl]

theorem scan_present_noforce (w : WinService) (env : InstallEnv) (l : List String) (σ : World)
    (hf : w.ForceReinstallOnDuplicate = false) (h : w.ServiceName ∈ l) :
    WinService.Install.scan w env l σ =
      (some (.errorf ("service " ++ w.ServiceName ++ " is already installed")), σ) := by
  induction l with
  | nil => simp at h
  | cons a l ih =>
    by_cases ha : a = w.ServiceName
    · simp [WinService.Install.scan, ha, hf]
    · have hl : w.ServiceName ∈ l := by
        rcases List.mem_cons.mp h with e | e
        · exact absurd e.symm ha
        · exact e
      simp [WinService.Install.scan, ha, ih hl]

theorem scan_present_force (w : WinService) (env : InstallEnv) (l : List String) (σ : World)
    (hf : w.ForceReinstallOnDuplicate = true) (h : w.ServiceName ∈ l) :
    WinService.Install.scan w env l σ =
      (match w.Uninstall env.uninstall σ with
       | (some err, τ) => (some err, τ)
       | (none, τ) => (none, τ.record (.sleep 3))) := by
  induction l with
  | nil => simp at h
  | cons a l ih =>
    by_cases ha : a = w.ServiceName
    · simp [WinService.Install.scan, ha, hf]
    · have hl : w.ServiceName ∈ l := by
        rcases List.mem_cons.mp h with e | e
        · exact absurd e.symm ha
        · exact e
      simp [WinService.Install.scan, ha, ih hl]

theorem mem_names_iff (reg : List Entry) (n : String) :
    n ∈ reg.map (·.name) ↔ ∃ e ∈ reg, e.name = n := by
  simp [List.mem_map]

/-- A successful Install resolved the executable path, and leaves the entries
of the other names followed by the one new entry; if the name was registered
before and the descriptor forces the reinstall, the nested Uninstall
succeeded. -/
theorem Install_ok (w : WinService) (env : InstallEnv) (σ : World)
    (h : (w.Install env σ).1 = none) :
    ∃ p, resolvedPath env = .ok p ∧
      (w.Install env σ).2.registry = others w.ServiceName σ.registry ++ [w.entry p] ∧
      (w.ServiceName ∈ σ.registry.map (·.name) →
        w.ForceReinstallOnDuplicate = true →
        (w.Uninstall env.uninstall ((σ.record Op.connect).record Op.listServices)).1 = none) := by
  unfold WinService.Install at h ⊢
  unfold resolvedPath
  cases hexe : env.executable with
  | error err => simp [hexe] at h
  | ok exe =>
    simp only [hexe] at h ⊢
    cases habs : env.abs exe with
    | error err => simp [habs] at h
    | ok p =>
      simp only [habs] at h ⊢
      cases hconn : env.connect with
      | some err => simp [hconn] at h
      | none =>
        simp only [hconn] at h ⊢
        cases hlist : env.listServices with
        | some err => simp [mgr.ListServices, hlist] at h
        | none =>
          simp only [mgr.ListServices, hlist, World.record_registry] at h ⊢
          refine ⟨p, rfl, ?_⟩
          by_cases hmem : w.ServiceName ∈ σ.registry.map (·.name)
          · cases hf : w.ForceReinstallOnDuplicate with
            | false =>
              rw [scan_present_noforce w env _ _ hf hmem] at h
              simp at h
            | true =>
              rw [scan_present_force w env _ _ hf hmem] at h ⊢
              cases hU : w.Uninstall env.uninstall
                  ((σ.record Op.connect).record Op.listServices) with
              | mk r τ =>
                cases r with
                | some err => simp [hU] at h
                | none =>
                  have hreg : τ.registry = others w.ServiceName σ.registry := by
                    have := Uninstall_ok w env.uninstall
                      ((σ.record Op.connect).record Op.listServices) (by rw [hU])
                    rw [hU] at this
                    simpa using this
                  have hany := any_name_false τ.registry w.ServiceName
                    (by rw [hreg]; exact not_mem_others _ _)
                  simp only [hU, World.record_registry] at h ⊢
                  cases hcr : env.createService with
                  | some err => simp [mgr.CreateService, hany, hcr] at h
                  | none =>
                    have hno : ¬ ∃ x ∈ others w.ServiceName σ.registry,
                        x.name = w.ServiceName :=
                      fun ⟨x, hx, hn⟩ => not_mem_others _ _ x hx hn
                    simp [mgr.CreateService, hcr, hreg, hno, WinService.entry]
          · have habsent : ∀ e ∈ σ.registry, e.name ≠ w.ServiceName := by
              intro e he hn
              exact hmem ((mem_names_iff _ _).mpr ⟨e, he, hn⟩)
            have hany := any_name_false σ.registry w.ServiceName habsent
            rw [scan_absent w env _ _ hmem] at h ⊢
            simp only [World.record_registry] at h ⊢
            cases hcr : env.createService with
            | some err => simp [mgr.CreateService, hany, hcr] at h
            | none =>
              simp [mgr.CreateService, hany, hcr, others_of_absent _ _ habsent,
                WinService.entry, hmem]

theorem others_append_entry (w : WinService) (p : String) (reg : List Entry) :
    others w.ServiceName (others w.ServiceName reg ++ [w.entry p]) =
      others w.ServiceName reg := by
  simp [others, List.filter_append, List.filter_filter, WinService.entry]

theorem entriesOf_append_entry (w : WinService) (p : String) (reg : List Entry) :
    entriesOf w.ServiceName (others w.ServiceName reg ++ [w.entry p]) = [w.entry p] := by
  simp [entriesOf, others, List.filter_append, List.filter_filter, WinService.entry]

/-! ## Theorems on Install and Uninstall -/

/-- C4: on a registry with no entry under the name of the descriptor,
Uninstall fails and mutates nothing: the registry is as before and the only
calls made are the connect, the open and the disconnect, so no query, no
control and no delete; once the connection is made, the error returned is the
one OpenService gives for a missing entry, ERROR_SERVICE_DOES_NOT_EXIST. -/
theorem C4_uninstall_absent (w : WinService) (env : UninstallEnv) (σ : World)
    (habs : ∀ e ∈ σ.registry, e.name ≠ w.ServiceName) :
    (w.Uninstall env σ).1 ≠ none ∧
    (w.Uninstall env σ).2.registry = σ.registry ∧
    (∀ op ∈ issued σ (w.Uninstall env σ).2,
      op = Op.connect ∨ op = Op.openService w.ServiceName ∨ op = Op.disconnect) ∧
    (∀ op ∈ issued σ (w.Uninstall env σ).2, op.mutates = false) ∧
    (env.connect = none →
      mgr.OpenService env.openService σ.registry w.ServiceName =
        .error (.errno ERROR_SERVICE_DOES_NOT_EXIST) ∧
      w.Uninstall env σ =
        (some (.errno ERROR_SERVICE_DOES_NOT_EXIST),
         { registry := σ.registry,
           log := σ.log ++ [Op.connect, Op.openService w.ServiceName, Op.disconnect] })) := by
  have hopen := OpenService_absent env.openService σ.registry w.ServiceName habs
  cases hconn : env.connect with
  | some err =>
    simp [WinService.Uninstall, hconn, issued, Op.mutates]
  | none =>
    simp [WinService.Uninstall, hconn, hopen, issued, World.record, Op.mutates]

/-- C4 witness: the sample service is uninstalled from a registry that only
holds another service. -/
theorem C4_uninstall_absent_witness :
    (∀ e ∈ [otherEntry], e.name ≠ sampleService.ServiceName) ∧
    sampleService.Uninstall {} ⟨[otherEntry], []⟩ =
      (some (.errno ERROR_SERVICE_DOES_NOT_EXIST),
       { registry := [otherEntry],
         log := [Op.connect, Op.openService "AATestGoServer", Op.disconnect] }) :=
  ⟨by decide, ((C4_uninstall_absent sampleService {} ⟨[otherEntry], []⟩ (by decide)).2.2.2.2
    rfl).2⟩

/-- C7 counterexample: the entry exists and is Running, the Stop control
fails with error 1061 and the delete would fail with error 5; Uninstall
returns the control error, not the delete error, and makes no delete call. -/
theorem C7_counterexample :
    (sampleService.Uninstall { control := some (.errno 1061), delete := some (.errno 5) }
        ⟨[sampleEntry], []⟩).1 = some (.errno 1061) ∧
    (sampleService.Uninstall { control := some (.errno 1061), delete := some (.errno 5) }
        ⟨[sampleEntry], []⟩).1 ≠ some (.errno 5) ∧
    Op.delete "AATestGoServer" ∉
      (sampleService.Uninstall { control := some (.errno 1061), delete := some (.errno 5) }
        ⟨[sampleEntry], []⟩).2.log ∧
    (sampleService.Uninstall { control := some (.errno 1061), delete := some (.errno 5) }
        ⟨[sampleEntry], []⟩).2.log =
      [Op.connect, Op.openService "AATestGoServer", Op.query "AATestGoServer",
       Op.control "AATestGoServer" svc.Stop, Op.close "AATestGoServer", Op.disconnect] := by
  decide

/-- C7 (amended): when the entry exists, its queried state is Running and
sending the Stop control fails, Uninstall returns the error of the control at
once: the calls made are connect, open, query, control, close and disconnect,
no delete is attempted, and the registry stays as it was. -/
theorem C7_failed_stop_returns (w : WinService) (env : UninstallEnv) (σ : World)
    (s : Entry) (err : Err)
    (hconn : env.connect = none)
    (hfind : σ.registry.find? (fun e => e.name = w.ServiceName) = some s)
    (hopen : env.openService = none)
    (hquery : env.query = none)
    (hrun : s.state = svc.Running)
    (hctl : env.control = some err) :
    w.Uninstall env σ =
      (some err,
       { registry := σ.registry,
         log := σ.log ++ [Op.connect, Op.openService w.ServiceName, Op.query w.ServiceName,
           Op.control w.ServiceName svc.Stop, Op.close w.ServiceName, Op.disconnect] }) ∧
    (∀ n, Op.delete n ∉ issued σ (w.Uninstall env σ).2) := by
  have ho : mgr.OpenService env.openService σ.registry w.ServiceName = .ok s := by
    rw [hopen]; exact OpenService_present _ _ _ hfind
  have hname : s.name = w.ServiceName := OpenService_name ho
  have heq : w.Uninstall env σ =
      (some err,
       { registry := σ.registry,
         log := σ.log ++ [Op.connect, Op.openService w.ServiceName, Op.query w.ServiceName,
           Op.control w.ServiceName svc.Stop, Op.close w.ServiceName, Op.disconnect] }) := by
    simp [WinService.Uninstall, hconn, ho, mgr.Query, hquery, hrun, mgr.Control, hctl,
      World.record, hname]
  refine ⟨heq, ?_⟩
  intro n
  rw [heq]
  simp [issued]

/-- C7 witness: the sample entry is Running and the Stop control fails. -/
theorem C7_failed_stop_returns_witness :
    sampleEntry.state = svc.Running ∧
    sampleService.Uninstall { control := some (.errno 1061), delete := some (.errno 5) }
        ⟨[otherEntry, sampleEntry], []⟩ =
      (some (.errno 1061),
       { registry := [otherEntry, sampleEntry],
         log := [Op.connect, Op.openService "AATestGoServer", Op.query "AATestGoServer",
           Op.control "AATestGoServer" svc.Stop, Op.close "AATestGoServer", Op.disconnect] }) :=
  ⟨rfl, (C7_failed_stop_returns sampleService
    { control := some (.errno 1061), delete := some (.errno 5) }
    ⟨[otherEntry, sampleEntry], []⟩ sampleEntry (.errno 1061) rfl (by decide) rfl rfl rfl
    rfl).1⟩

/-- C3: with ForceReinstallOnDuplicate false and the service name among the
registered names, Install fails and mutates nothing: the registry is as before
and the only calls made are the connect, the listing and the disconnect, so
no uninstall, no control, no delete and no create; once the executable path is
resolved and the listing obtained, the error returned is the already-installed
error. -/
theorem C3_install_duplicate_rejected (w : WinService) (env : InstallEnv) (σ : World)
    (hforce : w.ForceReinstallOnDuplicate = false)
    (hmem : w.ServiceName ∈ σ.registry.map (·.name)) :
    (w.Install env σ).1 ≠ none ∧
    (w.Install env σ).2.registry = σ.registry ∧
    (∀ op ∈ issued σ (w.Install env σ).2,
      op = Op.connect ∨ op = Op.listServices ∨ op = Op.disconnect) ∧
    (∀ op ∈ issued σ (w.Install env σ).2, op.mutates = false) ∧
    (∀ p, resolvedPath env = .ok p → env.connect = none →
      mgr.ListServices env.listServices σ.registry = .ok (σ.registry.map (·.name)) →
      w.Install env σ =
        (some (.errorf ("service " ++ w.ServiceName ++ " is already installed")),
         { registry := σ.registry,
           log := σ.log ++ [Op.connect, Op.listServices, Op.disconnect] })) := by
  unfold resolvedPath
  cases hexe : env.executable with
  | error err => simp [WinService.Install, hexe, issued]
  | ok exe =>
    cases habs : env.abs exe with
    | error err => simp [WinService.Install, hexe, habs, issued]
    | ok p =>
      cases hconn : env.connect with
      | some err => simp [WinService.Install, hexe, habs, hconn, issued, Op.mutates]
      | none =>
        cases hlist : env.listServices with
        | some err =>
          simp [WinService.Install, hexe, habs, hconn, hlist, mgr.ListServices, issued,
            Op.mutates]
        | none =>
          have hscan := scan_present_noforce w env (σ.registry.map (·.name))
            ((σ.record Op.connect).record Op.listServices) hforce hmem
          simp only [WinService.Install, hexe, habs, hconn, hlist, mgr.ListServices,
            World.record_registry, hscan]
          simp [issued, Op.mutates, World.record]

/-- C3 witness: the sample service without the force flag, installed over
its own registration. -/
theorem C3_install_duplicate_rejected_witness :
    ({ sampleService with ForceReinstallOnDuplicate := false }).ServiceName ∈
      [otherEntry, sampleEntry].map (·.name) ∧
    ({ sampleService with ForceReinstallOnDuplicate := false }).Install sampleEnv
        ⟨[otherEntry, sampleEntry], []⟩ =
      (some (.errorf "service AATestGoServer is already installed"),
       { registry := [otherEntry, sampleEntry],
         log := [Op.connect, Op.listServices, Op.disconnect] }) :=
  ⟨by decide, (C3_install_duplicate_rejected
    { sampleService with ForceReinstallOnDuplicate := false } sampleEnv
    ⟨[otherEntry, sampleEntry], []⟩ rfl (by decide)).2.2.2.2 "C:/new/svc.exe" rfl rfl rfl⟩

/-- C5: with ForceReinstallOnDuplicate true and an entry under the service
name already registered, whatever its path, a successful Install went through
a successful Uninstall and leaves exactly one entry under the name: it has the
resolved absolute path of the executable, the display name and description of
the descriptor, and the start type Automatic when AutoStart is true and Manual
otherwise; the entries of the other names are as before. -/
theorem C5_force_reinstall (w : WinService) (env : InstallEnv) (σ : World)
    (hforce : w.ForceReinstallOnDuplicate = true)
    (hmem : ∃ e ∈ σ.registry, e.name = w.ServiceName)
    (hok : (w.Install env σ).1 = none) :
    ∃ p, resolvedPath env = .ok p ∧
      entriesOf w.ServiceName (w.Install env σ).2.registry =
        [{ name := w.ServiceName, exePath := p, displayName := w.ServiceDisplayName,
           description := w.ServiceDescription,
           startType := if w.AutoStart then mgr.StartAutomatic else mgr.StartManual,
           state := svc.Stopped }] ∧
      (entriesOf w.ServiceName (w.Install env σ).2.registry).length = 1 ∧
      others w.ServiceName (w.Install env σ).2.registry = others w.ServiceName σ.registry ∧
      (w.Uninstall env.uninstall ((σ.record Op.connect).record Op.listServices)).1 = none := by
  obtain ⟨p, hp, hreg, hun⟩ := Install_ok w env σ hok
  refine ⟨p, hp, ?_, ?_, ?_, hun ((mem_names_iff _ _).mpr hmem) hforce⟩
  · rw [hreg, entriesOf_append_entry]; rfl
  · rw [hreg, entriesOf_append_entry]; rfl
  · rw [hreg, others_append_entry]

/-- C5 witness: the sample service is installed over its own registration at
an old path. -/
theorem C5_force_reinstall_witness :
    (∃ e ∈ [otherEntry, sampleEntry], e.name = sampleService.ServiceName) ∧
    ∃ p, resolvedPath sampleEnv = .ok p ∧
      entriesOf sampleService.ServiceName
          (sampleService.Install sampleEnv ⟨[otherEntry, sampleEntry], []⟩).2.registry =
        [{ name := "AATestGoServer", exePath := p, displayName := "AATestGoServer service",
           description := "AATestGoServer description", startType := mgr.StartAutomatic,
           state := svc.Stopped }] :=
  ⟨by decide,
   (C5_force_reinstall sampleService sampleEnv ⟨[otherEntry, sampleEntry], []⟩ rfl (by decide)
      (by decide)).imp (fun _ hp => ⟨hp.1, hp.2.1⟩)⟩

/-- C6: if Install of a descriptor succeeds and the following Uninstall of
the same descriptor succeeds, whatever state the service has taken in between
(Running or not), then the registry holds no entry under the service name
afterwards and the entries of the other names are those of the initial
registry; in between there was exactly one entry under the name. -/
theorem C6_install_uninstall_roundtrip (D : WinService) (env1 : InstallEnv)
    (env2 : UninstallEnv) (σ : World) (st : Nat)
    (h1 : (D.Install env1 σ).1 = none)
    (h2 : (D.Uninstall env2
        { registry := setState D.ServiceName st (D.Install env1 σ).2.registry,
          log := (D.Install env1 σ).2.log }).1 = none) :
    (∀ e ∈ (D.Uninstall env2
        { registry := setState D.ServiceName st (D.Install env1 σ).2.registry,
          log := (D.Install env1 σ).2.log }).2.registry, e.name ≠ D.ServiceName) ∧
    (D.Uninstall env2
        { registry := setState D.ServiceName st (D.Install env1 σ).2.registry,
          log := (D.Install env1 σ).2.log }).2.registry = others D.ServiceName σ.registry ∧
    (entriesOf D.ServiceName (D.Install env1 σ).2.registry).length = 1 := by
  obtain ⟨p, _, hreg, _⟩ := Install_ok D env1 σ h1
  have hfinal := Uninstall_ok D env2 _ h2
  have hothers : others D.ServiceName (setState D.ServiceName st (D.Install env1 σ).2.registry) =
      others D.ServiceName σ.registry := by
    rw [others_setState, hreg, others_append_entry]
  replace hfinal := hfinal.trans hothers
  refine ⟨?_, hfinal, ?_⟩
  · rw [hfinal]; exact not_mem_others _ _
  · rw [hreg, entriesOf_append_entry]; rfl

/-- C6 witness: the sample service is installed over its old registration,
started, and uninstalled again; only the other service is left. -/
theorem C6_install_uninstall_roundtrip_witness :
    (sampleService.Install sampleEnv ⟨[otherEntry, sampleEntry], []⟩).1 = none ∧
    (sampleService.Uninstall {}
        { registry := setState sampleService.ServiceName svc.Running
            (sampleService.Install sampleEnv ⟨[otherEntry, sampleEntry], []⟩).2.registry,
          log := (sampleService.Install sampleEnv ⟨[otherEntry, sampleEntry], []⟩).2.log
        }).2.registry = [otherEntry] :=
  ⟨by decide,
   (C6_install_uninstall_roundtrip sampleService sampleEnv {} ⟨[otherEntry, sampleEntry], []⟩
      svc.Running (by decide) (by decide)).2.1⟩
